import Mathlib

/-!
# fantasy4x: `include/utils.hpp`

A shallow embedding of the geometry types of `utils.hpp` (`P`, `Rect`), of
`Char_And_Clr` and of the enumeration `Dir`, followed by the properties proved
about them.

## Integer model

The members of `P` are C++ `int`s.  `int` is taken as the 32-bit
two's-complement type of the usual targets: a value is an integer in
`[-2^31, 2^31 - 1]`; `+`, `-` and `*` are computed modulo `2^32` (the C++
standard leaves signed overflow undefined; wrapping is what the hardware
does); `/` truncates toward zero and has no result when the divisor is zero or
when the quotient is not representable (`INT_MIN / -1`).
-/

namespace Fantasy4x

/-- Smallest value of `int`. -/
def INT_MIN : Int := -2147483648

/-- Largest value of `int`. -/
def INT_MAX : Int := 2147483647

/-- A value of the C++ type `int`. -/
structure I32 where
  val : Int
  lo : -2147483648 ≤ val
  hi : val ≤ 2147483647
deriving DecidableEq

/-- Conversion of an integer to `int`, modulo `2^32` (identity on the range of `int`). -/
def I32.wrap (n : Int) : I32 :=
  ⟨(n + 2147483648) % 4294967296 - 2147483648, by omega, by omega⟩

/-- Checked conversion: the `int` whose value is `n`, when there is one. -/
def I32.checked (n : Int) : Option I32 :=
  if h : -2147483648 ≤ n ∧ n ≤ 2147483647 then some ⟨n, h.1, h.2⟩ else none

instance (n : Nat) : OfNat I32 n := ⟨I32.wrap (Int.ofNat n)⟩

/-- Builtin `int + int`. -/
def int_add (a b : I32) : I32 := I32.wrap (a.val + b.val)

/-- Builtin `int - int`. -/
def int_sub (a b : I32) : I32 := I32.wrap (a.val - b.val)

/-- Builtin `int * int`. -/
def int_mul (a b : I32) : I32 := I32.wrap (a.val * b.val)

/-- Builtin `int / int`: truncating quotient; no result for a zero divisor or an
unrepresentable quotient. -/
def int_div (a b : I32) : Option I32 :=
  if b.val = 0 then none else I32.checked (Int.tdiv a.val b.val)

/-- The function `std::min(a, b)` on `int`: `(b < a) ? b : a`. -/
def std_min (a b : I32) : I32 := if b.val < a.val then b else a

/-- The function `std::max(a, b)` on `int`: `(a < b) ? b : a`. -/
def std_max (a b : I32) : I32 := if a.val < b.val then b else a

/-! ## `struct P` -/

/-- The struct `P`: `int x, y;`. -/
structure P where
  x : I32
  y : I32
deriving DecidableEq

/-- Constructor `P()`. -/
def P.default : P := ⟨0, 0⟩

/-- Constructor `P(const int v)`. -/
def P.of_int (v : I32) : P := ⟨v, v⟩

/-- Constructor `P(const P& p)`. -/
def P.copy (p : P) : P := ⟨p.x, p.y⟩

/-- Member `P::operator*=(const int v)`: the value of `*this` afterwards. -/
def P.mul_assign_int (self : P) (v : I32) : P :=
  let x1 := int_mul self.x v
  let y1 := int_mul self.y v
  ⟨x1, y1⟩

/-- Member `P::operator*=(const P& p)`: the value of `*this` afterwards. -/
def P.mul_assign (self p : P) : P :=
  let x1 := int_mul self.x p.x
  let y1 := int_mul self.y p.y
  ⟨x1, y1⟩

/-- Member `P::operator/=(const int v)`: the value of `*this` afterwards. -/
def P.div_assign_int (self : P) (v : I32) : Option P := do
  let x1 ← int_div self.x v
  let y1 ← int_div self.y v
  pure ⟨x1, y1⟩

/-- Member `P::operator/=(const P& p)`: the value of `*this` afterwards. -/
def P.div_assign (self p : P) : Option P := do
  let x1 ← int_div self.x p.x
  let y1 ← int_div self.y p.y
  pure ⟨x1, y1⟩

/-- Member `P::operator+=(const P& p)`: the value of `*this` afterwards. -/
def P.add_assign (self p : P) : P :=
  let x1 := int_add self.x p.x
  let y1 := int_add self.y p.y
  ⟨x1, y1⟩

/-- Member `P::operator-=(const P& p)`: the value of `*this` afterwards. -/
def P.sub_assign (self p : P) : P :=
  let x1 := int_sub self.x p.x
  let y1 := int_sub self.y p.y
  ⟨x1, y1⟩

/-- Member `P::operator+(const P& p)`. -/
def P.add (a p : P) : P := ⟨int_add a.x p.x, int_add a.y p.y⟩

/-- Member `P::operator+(const int v)`. -/
def P.add_int (a : P) (v : I32) : P := ⟨int_add a.x v, int_add a.y v⟩

/-- Member `P::operator-(const P& p)`. -/
def P.sub (a p : P) : P := ⟨int_sub a.x p.x, int_sub a.y p.y⟩

/-- Member `P::operator-(const int v)`. -/
def P.sub_int (a : P) (v : I32) : P := ⟨int_sub a.x v, int_sub a.y v⟩

/-- Member `P::operator/(const int v)`. -/
def P.div_int (a : P) (v : I32) : Option P := do
  let qx ← int_div a.x v
  let qy ← int_div a.y v
  pure ⟨qx, qy⟩

/-- Member `P::operator/(const P& p)`. -/
def P.div (a p : P) : Option P := do
  let qx ← int_div a.x p.x
  let qy ← int_div a.y p.y
  pure ⟨qx, qy⟩

/-- Member `P::operator*(const int v)`. -/
def P.mul_int (a : P) (v : I32) : P := ⟨int_mul a.x v, int_mul a.y v⟩

/-- Member `P::operator*(const P& p)`. -/
def P.mul (a p : P) : P := ⟨int_mul a.x p.x, int_mul a.y p.y⟩

/-- Member `P::operator==(const P& p)`. -/
def P.eq (a p : P) : Bool := decide (a.x.val = p.x.val) && decide (a.y.val = p.y.val)

/-- Member `P::operator!=(const P& p)`. -/
def P.ne (a p : P) : Bool := decide (a.x.val ≠ p.x.val) || decide (a.y.val ≠ p.y.val)

/-- Member `P::operator!=(const int v)`. -/
def P.ne_int (a : P) (v : I32) : Bool := decide (a.x.val ≠ v.val) || decide (a.y.val ≠ v.val)

/-- Member `P::operator>(const P& p)`. -/
def P.gt (a p : P) : Bool := decide (a.x.val > p.x.val) && decide (a.y.val > p.y.val)

/-- Member `P::operator>(const int v)`. -/
def P.gt_int (a : P) (v : I32) : Bool := decide (a.x.val > v.val) && decide (a.y.val > v.val)

/-- Member `P::operator<(const P& p)`. -/
def P.lt (a p : P) : Bool := decide (a.x.val < p.x.val) && decide (a.y.val < p.y.val)

/-- Member `P::operator<(const int v)`. -/
def P.lt_int (a : P) (v : I32) : Bool := decide (a.x.val < v.val) && decide (a.y.val < v.val)

/-- Member `P::operator>=(const P& p)`. -/
def P.ge (a p : P) : Bool := decide (a.x.val ≥ p.x.val) && decide (a.y.val ≥ p.y.val)

/-- Member `P::operator>=(const int v)`. -/
def P.ge_int (a : P) (v : I32) : Bool := decide (a.x.val ≥ v.val) && decide (a.y.val ≥ v.val)

/-- Member `P::operator<=(const P& p)`. -/
def P.le (a p : P) : Bool := decide (a.x.val ≤ p.x.val) && decide (a.y.val ≤ p.y.val)

/-- Member `P::operator<=(const int v)`. -/
def P.le_int (a : P) (v : I32) : Bool := decide (a.x.val ≤ v.val) && decide (a.y.val ≤ v.val)

/-- One argument of the constructor call in `P::signs`: `x == 0 ? 0 : x > 0 ? 1 : -1`. -/
def sign_of (x : I32) : I32 :=
  if x.val = 0 then 0 else if x.val > 0 then 1 else I32.wrap (-1)

/-- Member `P::signs`. -/
def P.signs (a : P) : P := ⟨sign_of a.x, sign_of a.y⟩

/-- Member `P::pos_with_offset`. -/
def P.pos_with_offset (a d : P) : P := ⟨int_add a.x d.x, int_add a.y d.y⟩

/-- Member `P::pos_with_x_offset`. -/
def P.pos_with_x_offset (a : P) (dx : I32) : P := ⟨int_add a.x dx, a.y⟩

/-- Member `P::pos_with_y_offset`. -/
def P.pos_with_y_offset (a : P) (dy : I32) : P := ⟨a.x, int_add a.y dy⟩

/-- Member `P::set(const P& other)`: the value of `*this` afterwards. -/
def P.set (_self other : P) : P := ⟨other.x, other.y⟩

/-- Member `P::set(const int new_x, const int new_y)`: the value of `*this` afterwards. -/
def P.set_xy (_self : P) (new_x new_y : I32) : P := ⟨new_x, new_y⟩

/-- Member `P::swap(P& p)` on two distinct objects: the values of `(*this, p)` afterwards. -/
def P.swap (self p : P) : P × P :=
  let p_temp := P.copy p
  let p1 : P := ⟨self.x, self.y⟩
  let self1 : P := ⟨p_temp.x, self.y⟩
  let self2 : P := ⟨self1.x, p_temp.y⟩
  (self2, p1)

/-- Member `P::swap(P& p)` when `p` is `*this` itself: the value of the object afterwards. -/
def P.swap_aliased (self : P) : P :=
  let p_temp := P.copy self
  let s1 : P := ⟨self.x, self.y⟩
  let s2 : P := ⟨p_temp.x, s1.y⟩
  ⟨s2.x, p_temp.y⟩

/-! ## Calls as steps on the objects involved

A call `a.f(p)` is a step on the pair of objects `(a, p)`.  The members below either
are `const` (no assignment in the body) or take `p` by `const P&` and assign only the
members of `*this`; `a` and `p` are distinct objects. -/

/-- The call `a.pos_with_offset(d)`: the receiver afterwards and the returned point. -/
def P.pos_with_offset_call (a d : P) : P × P := (a, P.pos_with_offset a d)

/-- The call `a.pos_with_x_offset(dx)`: the receiver afterwards and the returned point. -/
def P.pos_with_x_offset_call (a : P) (dx : I32) : P × P := (a, P.pos_with_x_offset a dx)

/-- The call `a.pos_with_y_offset(dy)`: the receiver afterwards and the returned point. -/
def P.pos_with_y_offset_call (a : P) (dy : I32) : P × P := (a, P.pos_with_y_offset a dy)

/-- The statement `a *= p`: the values of `(a, p)` afterwards. -/
def P.mul_assign_call (a p : P) : P × P := (P.mul_assign a p, p)

/-- The statement `a /= p`: the values of `(a, p)` afterwards, when the divisions have a
result. -/
def P.div_assign_call (a p : P) : Option (P × P) := do
  let a1 ← P.div_assign a p
  pure (a1, p)

/-- The statement `a += p`: the values of `(a, p)` afterwards. -/
def P.add_assign_call (a p : P) : P × P := (P.add_assign a p, p)

/-- The statement `a -= p`: the values of `(a, p)` afterwards. -/
def P.sub_assign_call (a p : P) : P × P := (P.sub_assign a p, p)

/-! ## `struct Rect` -/

/-- The struct `Rect`: `P p0; P p1;`. -/
structure Rect where
  p0 : P
  p1 : P
deriving DecidableEq

/-- Constructor `Rect()`. -/
def Rect.default : Rect := ⟨P.default, P.default⟩

/-- Constructor `Rect(const P& p0_, const P& p1_)`. -/
def Rect.of_points (p0_ p1_ : P) : Rect := ⟨p0_, p1_⟩

/-- Constructor `Rect(const int x0, const int y0, const int x1, const int y1)`. -/
def Rect.of_coords (x0 y0 x1 y1 : I32) : Rect := ⟨⟨x0, y0⟩, ⟨x1, y1⟩⟩

/-- Member `Rect::w`. -/
def Rect.w (r : Rect) : I32 := int_add (int_sub r.p1.x r.p0.x) 1

/-- Member `Rect::h`. -/
def Rect.h (r : Rect) : I32 := int_add (int_sub r.p1.y r.p0.y) 1

/-- Member `Rect::dims`. -/
def Rect.dims (r : Rect) : P := ⟨r.w, r.h⟩

/-- Member `Rect::min_dim`. -/
def Rect.min_dim (r : Rect) : I32 := std_min r.w r.h

/-- Member `Rect::max_dim`. -/
def Rect.max_dim (r : Rect) : I32 := std_max r.w r.h

/-- Member `Rect::center_pos`. -/
def Rect.center_pos (r : Rect) : Option P := P.div_int (P.add r.p1 r.p0) 2

/-! ## `struct Char_And_Clr` -/

/-- The C++ type `char`, by its code (one byte). -/
abbrev c_char : Type := Fin 256

/-- The struct `Char_And_Clr`: `char ch; const Clr clr; const Clr clr_bg;`.  The colour type
`Clr` is declared in `colors.hpp` and is a parameter here. -/
structure Char_And_Clr (Clr : Type) where
  ch : c_char
  clr : Clr
  clr_bg : Clr

/-- Constructor `Char_And_Clr(char ch_, Clr clr_, Clr clr_bg_)` with all three arguments
given. -/
def Char_And_Clr.ctor {Clr : Type} (ch_ : c_char) (clr_ clr_bg_ : Clr) : Char_And_Clr Clr :=
  ⟨ch_, clr_, clr_bg_⟩

/-- Constructor `Char_And_Clr(char ch_, Clr clr_)`: the third argument takes its default
`clr_black` (a constant of `colors.hpp`, a parameter here). -/
def Char_And_Clr.ctor2 {Clr : Type} (clr_black : Clr) (ch_ : c_char) (clr_ : Clr) :
    Char_And_Clr Clr :=
  Char_And_Clr.ctor ch_ clr_ clr_black

/-- Constructor `Char_And_Clr()`: delegates to `Char_And_Clr(0, clr_white, clr_white)`
(`clr_white` is a constant of `colors.hpp`, a parameter here). -/
def Char_And_Clr.default {Clr : Type} (clr_white : Clr) : Char_And_Clr Clr :=
  Char_And_Clr.ctor 0 clr_white clr_white

/-! ## `enum class Dir` -/

/-- The enumeration `Dir`. -/
inductive Dir where
  | down_left
  | down
  | down_right
  | left
  | center
  | right
  | up_left
  | up
  | up_right
  | dir_end
deriving DecidableEq

/-- Underlying value of an enumerator of `Dir`, as written in the declaration. -/
def Dir.to_int : Dir → Int
  | .down_left => 1
  | .down => 2
  | .down_right => 3
  | .left => 4
  | .center => 5
  | .right => 6
  | .up_left => 7
  | .up => 8
  | .up_right => 9
  | .dir_end => 10

/-- The enumerators of `Dir` in declaration order. -/
def Dir.enumerators : List Dir :=
  [.down_left, .down, .down_right, .left, .center, .right, .up_left, .up, .up_right, .dir_end]

/-- The nine direction variants: every enumerator but the sentinel `dir_end`. -/
def Dir.directions : List Dir :=
  Dir.enumerators.filter (fun d => decide (d ≠ Dir.dir_end))

/-- Conversion `Dir(i)` of an integer: the enumerator with that underlying value, if any. -/
def Dir.of_int (i : Int) : Option Dir :=
  Dir.enumerators.find? (fun d => decide (d.to_int = i))

/-! ## Reference notions the properties are stated against -/

/-- Rounding toward zero, stated without reference to the division itself: `q` is the
quotient of `x` by `v` rounded toward zero when the remainder `x - q * v` is smaller than
`v` in magnitude and is zero or has the sign of `x`. -/
def rounds_toward_zero (x v q : Int) : Prop :=
  (0 ≤ x → 0 ≤ x - q * v ∧ x - q * v < (v.natAbs : Int)) ∧
  (x ≤ 0 → -(v.natAbs : Int) < x - q * v ∧ x - q * v ≤ 0)

instance (x v q : Int) : Decidable (rounds_toward_zero x v q) := by
  unfold rounds_toward_zero
  infer_instance

/-- The iteration the specification describes for `Dir`: the integers from `1` up to
`dir_end - 1` in increasing order, each converted to `Dir`. -/
def dir_iteration : List (Option Dir) :=
  (List.range' 1 (Dir.dir_end.to_int.toNat - 1)).map (fun i => Dir.of_int (Int.ofNat i))

/-! ## Helper lemmas -/

theorem I32.ext_val {a b : I32} (h : a.val = b.val) : a = b := by
  cases a; cases b; cases h; rfl

theorem I32.wrap_val (n : Int) :
    (I32.wrap n).val = (n + 2147483648) % 4294967296 - 2147483648 := rfl

theorem I32.wrap_val_of_range {n : Int} (h1 : -2147483648 ≤ n) (h2 : n ≤ 2147483647) :
    (I32.wrap n).val = n := by
  rw [I32.wrap_val]; omega

theorem I32.val_zero : (0 : I32).val = 0 := rfl

theorem I32.val_one : (1 : I32).val = 1 := rfl

theorem tdiv_natAbs_le (a b : Int) : (Int.tdiv a b).natAbs ≤ a.natAbs := by
  rw [Int.natAbs_tdiv]
  exact Nat.div_le_self _ _

theorem tdiv_natAbs_le_half (a b : Int) (hb : 2 ≤ b.natAbs) :
    2 * (Int.tdiv a b).natAbs ≤ a.natAbs := by
  rw [Int.natAbs_tdiv]
  have h1 : a.natAbs / b.natAbs ≤ a.natAbs / 2 := Nat.div_le_div_left hb (by decide)
  have h2 : a.natAbs.div b.natAbs = a.natAbs / b.natAbs := rfl
  omega

/-- The quotient of two `int`s is representable unless it is `INT_MIN / -1`. -/
theorem tdiv_in_range (a b : I32) (h : ¬ (a.val = -2147483648 ∧ b.val = -1)) :
    -2147483648 ≤ Int.tdiv a.val b.val ∧ Int.tdiv a.val b.val ≤ 2147483647 := by
  have ha1 := a.lo
  have ha2 := a.hi
  by_cases hb1 : b.val = 1
  · rw [hb1, Int.tdiv_one]; omega
  · by_cases hb2 : b.val = -1
    · have e : Int.tdiv a.val b.val = -a.val := by
        rw [hb2, Int.tdiv_neg, Int.tdiv_one]
      rw [e]; omega
    · by_cases hb0 : b.val = 0
      · rw [hb0, Int.tdiv_zero]; omega
      · have h2 := tdiv_natAbs_le_half a.val b.val (by omega)
        omega

theorem int_div_some (a b : I32) (hb : b.val ≠ 0)
    (h : ¬ (a.val = -2147483648 ∧ b.val = -1)) :
    ∃ q, int_div a b = some q ∧ q.val = Int.tdiv a.val b.val := by
  have hr := tdiv_in_range a b h
  refine ⟨⟨Int.tdiv a.val b.val, hr.1, hr.2⟩, ?_, rfl⟩
  unfold int_div I32.checked
  rw [if_neg hb, dif_pos hr]

theorem int_div_eq_some (a b q : I32) (hb : b.val ≠ 0) (hq : q.val = Int.tdiv a.val b.val) :
    int_div a b = some q := by
  unfold int_div I32.checked
  have hr : -2147483648 ≤ Int.tdiv a.val b.val ∧ Int.tdiv a.val b.val ≤ 2147483647 := by
    rw [← hq]; exact ⟨q.lo, q.hi⟩
  rw [if_neg hb, dif_pos hr]
  exact congrArg some (I32.ext_val hq.symm)

theorem P.div_int_eq_some (a : P) (v : I32) (qx qy : I32)
    (hx : int_div a.x v = some qx) (hy : int_div a.y v = some qy) :
    P.div_int a v = some ⟨qx, qy⟩ := by
  unfold P.div_int
  rw [hx, hy]; rfl

theorem P.div_eq_some (a b : P) (qx qy : I32)
    (hx : int_div a.x b.x = some qx) (hy : int_div a.y b.y = some qy) :
    P.div a b = some ⟨qx, qy⟩ := by
  unfold P.div
  rw [hx, hy]; rfl

theorem tdiv_rem_pos (a b : Int) (ha : 0 ≤ a) (hb : 0 < b) :
    0 ≤ a - Int.tdiv a b * b ∧ a - Int.tdiv a b * b < b := by
  have h1 := Int.tmod_nonneg b ha
  have h2 := Int.tmod_lt_of_pos a hb
  rw [Int.tmod_def] at h1 h2
  constructor <;> linarith [mul_comm b (a.tdiv b)]

/-- The truncating quotient rounds toward zero. -/
theorem tdiv_rounds_toward_zero (x v : Int) (hv : v ≠ 0) :
    rounds_toward_zero x v (Int.tdiv x v) := by
  unfold rounds_toward_zero
  rcases lt_or_gt_of_ne hv with hneg | hpos
  · -- negative divisor
    have e : Int.tdiv x v = -Int.tdiv x (-v) := by
      rw [Int.tdiv_neg, neg_neg]
    have hn : ((v.natAbs : Int)) = -v := by omega
    constructor
    · intro hx
      have h := tdiv_rem_pos x (-v) hx (by omega)
      rw [e, hn]
      constructor <;> nlinarith [h.1, h.2]
    · intro hx
      have h := tdiv_rem_pos (-x) (-v) (by omega) (by omega)
      rw [Int.neg_tdiv_neg] at h
      rw [hn]
      constructor <;> nlinarith [h.1, h.2]
  · -- positive divisor
    have hn : ((v.natAbs : Int)) = v := by omega
    constructor
    · intro hx
      have h := tdiv_rem_pos x v hx hpos
      rw [hn]
      exact h
    · intro hx
      have h := tdiv_rem_pos (-x) v (by omega) hpos
      rw [Int.neg_tdiv] at h
      rw [hn]
      constructor <;> nlinarith [h.1, h.2]

/-- Dividing the negation: for `x` other than `INT_MIN` and `v` nonzero, `(0 - x) / v` and
`0 - (x / v)` both have a result and the results agree. -/
theorem int_div_neg (x v : I32) (hv : v.val ≠ 0) (hx : x.val ≠ -2147483648) :
    ∃ l r, int_div (int_sub 0 x) v = some l ∧ int_div x v = some r ∧
      l.val = (int_sub 0 r).val := by
  have hx1 := x.lo
  have hx2 := x.hi
  have hneg : (int_sub 0 x).val = -x.val := by
    simp only [int_sub, I32.val_zero]
    rw [I32.wrap_val_of_range (by omega) (by omega)]; omega
  obtain ⟨r, hr, hrv⟩ := int_div_some x v hv (fun h => hx h.1)
  obtain ⟨l, hl, hlv⟩ := int_div_some (int_sub 0 x) v hv (fun h => by rw [hneg] at h; omega)
  refine ⟨l, r, hl, hr, ?_⟩
  have hb := tdiv_natAbs_le x.val v.val
  rw [hlv, hneg, Int.neg_tdiv, ← hrv]
  simp only [int_sub, I32.val_zero]
  rw [I32.wrap_val_of_range (by omega) (by omega)]; omega

theorem int_add_comm (a b : I32) : int_add a b = int_add b a := by
  unfold int_add
  rw [Int.add_comm]

theorem P.add_comm (a b : P) : P.add a b = P.add b a := by
  unfold P.add
  rw [int_add_comm a.x b.x, int_add_comm a.y b.y]

/-- Halving an `int` always has a result, the truncating quotient. -/
theorem int_div_two (x : I32) : ∃ q, int_div x 2 = some q ∧ q.val = Int.tdiv x.val 2 :=
  int_div_some x 2 (by decide) (fun h => absurd h.2 (by decide))

/-- Halving toward zero stays between the two summands: for `lo ≤ hi`, the truncated half
of `hi + lo` lies in `[lo, hi]`. -/
theorem tdiv_two_between (lo hi : Int) (h : lo ≤ hi) :
    lo ≤ Int.tdiv (hi + lo) 2 ∧ Int.tdiv (hi + lo) 2 ≤ hi := by
  by_cases hs : 0 ≤ hi + lo
  · rw [Int.tdiv_eq_ediv hs (by decide)]
    omega
  · have e : Int.tdiv (hi + lo) 2 = -((-(hi + lo)) / 2) := by
      have h1 : Int.tdiv (-(-(hi + lo))) 2 = -Int.tdiv (-(hi + lo)) 2 := Int.neg_tdiv _ _
      rw [neg_neg] at h1
      rw [h1, Int.tdiv_eq_ediv (by omega) (by decide)]
    rw [e]
    omega

/-! ## Properties -/

/-- C1. The ordering operators of `P`, point against point and point against scalar, hold
exactly when the relation holds on both the x and the y components; for `a = (1,5)`,
`b = (5,1)` all of `a > b`, `a < b`, `a >= b`, `a <= b` are false. -/
theorem C1_ordering_componentwise (a b : P) (v : I32) :
    (P.gt a b = true ↔ a.x.val > b.x.val ∧ a.y.val > b.y.val) ∧
    (P.lt a b = true ↔ a.x.val < b.x.val ∧ a.y.val < b.y.val) ∧
    (P.ge a b = true ↔ a.x.val ≥ b.x.val ∧ a.y.val ≥ b.y.val) ∧
    (P.le a b = true ↔ a.x.val ≤ b.x.val ∧ a.y.val ≤ b.y.val) ∧
    (P.gt_int a v = true ↔ a.x.val > v.val ∧ a.y.val > v.val) ∧
    (P.lt_int a v = true ↔ a.x.val < v.val ∧ a.y.val < v.val) ∧
    (P.ge_int a v = true ↔ a.x.val ≥ v.val ∧ a.y.val ≥ v.val) ∧
    (P.le_int a v = true ↔ a.x.val ≤ v.val ∧ a.y.val ≤ v.val) ∧
    P.gt ⟨1, 5⟩ ⟨5, 1⟩ = false ∧ P.lt ⟨1, 5⟩ ⟨5, 1⟩ = false ∧
    P.ge ⟨1, 5⟩ ⟨5, 1⟩ = false ∧ P.le ⟨1, 5⟩ ⟨5, 1⟩ = false := by
  refine ⟨?_, ?_, ?_, ?_, ?_, ?_, ?_, ?_, by decide, by decide, by decide, by decide⟩
  · simp [P.gt]
  · simp [P.lt]
  · simp [P.ge]
  · simp [P.le]
  · simp [P.gt_int]
  · simp [P.lt_int]
  · simp [P.ge_int]
  · simp [P.le_int]

/-- C2. Point addition is associative and commutative up to `P::operator==`:
`(a + b) + c == a + (b + c)` and `a + b == b + a` for all points. -/
theorem C2_add_assoc_comm (a b c : P) :
    P.eq (P.add (P.add a b) c) (P.add a (P.add b c)) = true ∧
    P.eq (P.add a b) (P.add b a) = true := by
  simp only [P.eq, P.add, int_add, I32.wrap_val, Bool.and_eq_true, decide_eq_true_eq]
  refine ⟨⟨?_, ?_⟩, ⟨?_, ?_⟩⟩ <;> omega

/-- C3 (as stated, refuted). With `a = (2^30, 2^30)` and `v = 2` the scalar is nonzero and
both components are multiples of it, yet `a * v` overflows and `(a * v) / v` is
`(-2^30, -2^30)`, which is not `== a`. -/
theorem C3_counterexample :
    (2 : I32).val ≠ 0 ∧ (2 : I32).val ∣ (1073741824 : I32).val ∧
    P.mul_int ⟨1073741824, 1073741824⟩ 2
      = ⟨I32.wrap (-2147483648), I32.wrap (-2147483648)⟩ ∧
    P.div_int (P.mul_int ⟨1073741824, 1073741824⟩ 2) 2
      = some ⟨I32.wrap (-1073741824), I32.wrap (-1073741824)⟩ ∧
    ¬ (∃ q, P.div_int (P.mul_int ⟨1073741824, 1073741824⟩ 2) 2 = some q ∧
        P.eq q ⟨1073741824, 1073741824⟩ = true) := by
  refine ⟨by decide, by decide, by decide, by decide, ?_⟩
  rintro ⟨q, h1, h2⟩
  have h3 : P.div_int (P.mul_int ⟨1073741824, 1073741824⟩ 2) 2
      = some ⟨I32.wrap (-1073741824), I32.wrap (-1073741824)⟩ := by decide
  rw [h3] at h1
  cases h1
  exact absurd h2 (by decide)

/-- C3 (amended). For every point `a` and nonzero `v` such that both components of `a` are
exact multiples of `v` and neither product `a.x * v`, `a.y * v` leaves the range of `int`,
`(a * v) / v` has a result and it is `== a`. -/
theorem C3_mul_div_cancel (a : P) (v : I32) (hv : v.val ≠ 0)
    (hx : v.val ∣ a.x.val) (hy : v.val ∣ a.y.val)
    (hox : INT_MIN ≤ a.x.val * v.val ∧ a.x.val * v.val ≤ INT_MAX)
    (hoy : INT_MIN ≤ a.y.val * v.val ∧ a.y.val * v.val ≤ INT_MAX) :
    ∃ q, P.div_int (P.mul_int a v) v = some q ∧ P.eq q a = true := by
  simp only [INT_MIN, INT_MAX] at hox hoy
  have _ := hx
  have _ := hy
  refine ⟨a, ?_, by simp [P.eq]⟩
  have ex : int_div (int_mul a.x v) v = some a.x := by
    apply int_div_eq_some _ _ _ hv
    simp only [int_mul]
    rw [I32.wrap_val_of_range hox.1 hox.2, Int.mul_tdiv_cancel _ hv]
  have ey : int_div (int_mul a.y v) v = some a.y := by
    apply int_div_eq_some _ _ _ hv
    simp only [int_mul]
    rw [I32.wrap_val_of_range hoy.1 hoy.2, Int.mul_tdiv_cancel _ hv]
  exact P.div_int_eq_some (P.mul_int a v) v a.x a.y ex ey

/-- Instance of C3 (amended) at `a = (6, -4)`, `v = 2`. -/
theorem C3_mul_div_cancel_witness :
    (2 : I32).val ≠ 0 ∧ (2 : I32).val ∣ (6 : I32).val ∧ (2 : I32).val ∣ (I32.wrap (-4)).val ∧
    (INT_MIN ≤ (6 : I32).val * (2 : I32).val ∧ (6 : I32).val * (2 : I32).val ≤ INT_MAX) ∧
    (INT_MIN ≤ (I32.wrap (-4)).val * (2 : I32).val ∧
      (I32.wrap (-4)).val * (2 : I32).val ≤ INT_MAX) ∧
    ∃ q, P.div_int (P.mul_int ⟨6, I32.wrap (-4)⟩ 2) 2 = some q ∧
      P.eq q ⟨6, I32.wrap (-4)⟩ = true :=
  ⟨by decide, by decide, by decide, by decide, by decide,
    C3_mul_div_cancel ⟨6, I32.wrap (-4)⟩ 2 (by decide) (by decide) (by decide)
      (by decide) (by decide)⟩

/-- C4 (as stated, refuted). For `a = (INT_MIN, 0)`: with the nonzero scalar `-1` the
quotient of `a.x` is not representable and `a / v` has no result; with the scalar `2`,
`(P(0,0) - a) / 2` is `(-2^30, 0)` while `P(0,0) - (a / 2)` is `(2^30, 0)`. -/
theorem C4_counterexample :
    (I32.wrap (-1)).val ≠ 0 ∧
    P.div_int ⟨I32.wrap (-2147483648), 0⟩ (I32.wrap (-1)) = none ∧
    ¬ (∃ q, P.div_int ⟨I32.wrap (-2147483648), 0⟩ (I32.wrap (-1)) = some q ∧
        q.x.val = Int.tdiv (-2147483648) (-1)) ∧
    (2 : I32).val ≠ 0 ∧
    P.div_int (P.sub P.default ⟨I32.wrap (-2147483648), 0⟩) 2
      = some ⟨I32.wrap (-1073741824), 0⟩ ∧
    P.div_int ⟨I32.wrap (-2147483648), 0⟩ 2 = some ⟨I32.wrap (-1073741824), 0⟩ ∧
    P.sub P.default ⟨I32.wrap (-1073741824), 0⟩ = ⟨1073741824, 0⟩ ∧
    ¬ (∃ l r, P.div_int (P.sub P.default ⟨I32.wrap (-2147483648), 0⟩) 2 = some l ∧
        P.div_int ⟨I32.wrap (-2147483648), 0⟩ 2 = some r ∧
        P.eq l (P.sub P.default r) = true) := by
  refine ⟨by decide, by decide, ?_, by decide, by decide, by decide, by decide, ?_⟩
  · rintro ⟨q, h1, _⟩
    have h3 : P.div_int ⟨I32.wrap (-2147483648), 0⟩ (I32.wrap (-1)) = none := by decide
    rw [h3] at h1
    cases h1
  · rintro ⟨l, r, h1, h2, h3⟩
    have e1 : P.div_int (P.sub P.default ⟨I32.wrap (-2147483648), 0⟩) 2
        = some ⟨I32.wrap (-1073741824), 0⟩ := by decide
    have e2 : P.div_int ⟨I32.wrap (-2147483648), 0⟩ 2
        = some ⟨I32.wrap (-1073741824), 0⟩ := by decide
    rw [e1] at h1
    rw [e2] at h2
    cases h1
    cases h2
    exact absurd h3 (by decide)

/-- C4 (amended). Point division truncates toward zero.  For every point `a` and nonzero
`v`, unless `v` is `-1` and a component of `a` is `INT_MIN`, `a / v` has a result whose
components are the quotients of the components of `a` by `v` rounded toward zero; when no
component of `a` is `INT_MIN`, `(P(0,0) - a) / v == P(0,0) - (a / v)`; likewise `a / b` is
component-wise truncating when both components of `b` are nonzero (with the same exception
per component).  `P(-7, 7) / 2 == P(-3, 3)`. -/
theorem C4_div_truncates (a b : P) (v : I32) :
    (v.val ≠ 0 → ¬ (a.x.val = INT_MIN ∧ v.val = -1) → ¬ (a.y.val = INT_MIN ∧ v.val = -1) →
      ∃ q, P.div_int a v = some q ∧
        q.x.val = Int.tdiv a.x.val v.val ∧ q.y.val = Int.tdiv a.y.val v.val ∧
        rounds_toward_zero a.x.val v.val q.x.val ∧
        rounds_toward_zero a.y.val v.val q.y.val) ∧
    (v.val ≠ 0 → a.x.val ≠ INT_MIN → a.y.val ≠ INT_MIN →
      ∃ l r, P.div_int (P.sub P.default a) v = some l ∧ P.div_int a v = some r ∧
        P.eq l (P.sub P.default r) = true) ∧
    (b.x.val ≠ 0 → b.y.val ≠ 0 →
      ¬ (a.x.val = INT_MIN ∧ b.x.val = -1) → ¬ (a.y.val = INT_MIN ∧ b.y.val = -1) →
      ∃ q, P.div a b = some q ∧
        q.x.val = Int.tdiv a.x.val b.x.val ∧ q.y.val = Int.tdiv a.y.val b.y.val ∧
        rounds_toward_zero a.x.val b.x.val q.x.val ∧
        rounds_toward_zero a.y.val b.y.val q.y.val) ∧
    (∃ q, P.div_int ⟨I32.wrap (-7), 7⟩ 2 = some q ∧ P.eq q ⟨I32.wrap (-3), 3⟩ = true) := by
  simp only [INT_MIN]
  refine ⟨?_, ?_, ?_, ⟨⟨I32.wrap (-3), 3⟩, by decide, by decide⟩⟩
  · intro hv hx hy
    obtain ⟨qx, hqx, hqxv⟩ := int_div_some a.x v hv hx
    obtain ⟨qy, hqy, hqyv⟩ := int_div_some a.y v hv hy
    refine ⟨⟨qx, qy⟩, P.div_int_eq_some a v qx qy hqx hqy, hqxv, hqyv, ?_, ?_⟩
    · show rounds_toward_zero a.x.val v.val qx.val
      rw [hqxv]; exact tdiv_rounds_toward_zero _ _ hv
    · show rounds_toward_zero a.y.val v.val qy.val
      rw [hqyv]; exact tdiv_rounds_toward_zero _ _ hv
  · intro hv hx hy
    obtain ⟨lx, rx, hlx, hrx, ex⟩ := int_div_neg a.x v hv hx
    obtain ⟨ly, ry, hly, hry, ey⟩ := int_div_neg a.y v hv hy
    refine ⟨⟨lx, ly⟩, ⟨rx, ry⟩, ?_, P.div_int_eq_some a v rx ry hrx hry, ?_⟩
    · exact P.div_int_eq_some (P.sub P.default a) v lx ly hlx hly
    · simp only [P.eq, P.sub, Bool.and_eq_true, decide_eq_true_eq]
      exact ⟨ex, ey⟩
  · intro hbx hby hx hy
    obtain ⟨qx, hqx, hqxv⟩ := int_div_some a.x b.x hbx hx
    obtain ⟨qy, hqy, hqyv⟩ := int_div_some a.y b.y hby hy
    refine ⟨⟨qx, qy⟩, P.div_eq_some a b qx qy hqx hqy, hqxv, hqyv, ?_, ?_⟩
    · show rounds_toward_zero a.x.val b.x.val qx.val
      rw [hqxv]; exact tdiv_rounds_toward_zero _ _ hbx
    · show rounds_toward_zero a.y.val b.y.val qy.val
      rw [hqyv]; exact tdiv_rounds_toward_zero _ _ hby

/-- Instance of C4 (amended) at `a = (-7, 7)`, `v = 2`, `b = (2, -3)`. -/
theorem C4_div_truncates_witness :
    (∃ q, P.div_int ⟨I32.wrap (-7), 7⟩ 2 = some q ∧
        q.x.val = Int.tdiv (-7) 2 ∧ q.y.val = Int.tdiv 7 2 ∧
        rounds_toward_zero (-7) 2 q.x.val ∧ rounds_toward_zero 7 2 q.y.val) ∧
    (∃ l r, P.div_int (P.sub P.default ⟨I32.wrap (-7), 7⟩) 2 = some l ∧
        P.div_int ⟨I32.wrap (-7), 7⟩ 2 = some r ∧ P.eq l (P.sub P.default r) = true) ∧
    (∃ q, P.div ⟨I32.wrap (-7), 7⟩ ⟨2, I32.wrap (-3)⟩ = some q ∧
        q.x.val = Int.tdiv (-7) 2 ∧ q.y.val = Int.tdiv 7 (-3) ∧
        rounds_toward_zero (-7) 2 q.x.val ∧ rounds_toward_zero 7 (-3) q.y.val) :=
  ⟨(C4_div_truncates ⟨I32.wrap (-7), 7⟩ ⟨2, I32.wrap (-3)⟩ 2).1
      (by decide) (by decide) (by decide),
   (C4_div_truncates ⟨I32.wrap (-7), 7⟩ ⟨2, I32.wrap (-3)⟩ 2).2.1
      (by decide) (by decide) (by decide),
   (C4_div_truncates ⟨I32.wrap (-7), 7⟩ ⟨2, I32.wrap (-3)⟩ 2).2.2.1
      (by decide) (by decide) (by decide) (by decide)⟩

/-- C5. For every point `a`, each component of `a.signs()` is `-1`, `0` or `1` according to
whether the same component of `a` is negative, zero or positive; `(0,0)` maps to `(0,0)`,
`(-5,3)` to `(-1,1)` and `(7,-2)` to `(1,-1)`. -/
theorem C5_signs (a : P) :
    ((P.signs a).x.val = if a.x.val < 0 then -1 else if a.x.val = 0 then 0 else 1) ∧
    ((P.signs a).y.val = if a.y.val < 0 then -1 else if a.y.val = 0 then 0 else 1) ∧
    P.eq (P.signs ⟨0, 0⟩) ⟨0, 0⟩ = true ∧
    P.eq (P.signs ⟨I32.wrap (-5), 3⟩) ⟨I32.wrap (-1), 1⟩ = true ∧
    P.eq (P.signs ⟨7, I32.wrap (-2)⟩) ⟨1, I32.wrap (-1)⟩ = true := by
  refine ⟨?_, ?_, by decide, by decide, by decide⟩
  · simp only [P.signs, sign_of]
    split_ifs <;> first | rfl | omega
  · simp only [P.signs, sign_of]
    split_ifs <;> first | rfl | omega

/-- C6. Inclusive bounds: for every rectangle `r`, `r.w()` is `p1.x - p0.x + 1` and `r.h()`
is `p1.y - p0.y + 1` in `int` arithmetic (the exact integer whenever that is an `int`);
`Rect(p, p)` has width and height 1, and `Rect(P(0,0), P(3,4))` has width 4, height 5. -/
theorem C6_rect_w_h (r : Rect) (p : P) :
    r.w = int_add (int_sub r.p1.x r.p0.x) 1 ∧
    r.h = int_add (int_sub r.p1.y r.p0.y) 1 ∧
    r.w.val = (I32.wrap (r.p1.x.val - r.p0.x.val + 1)).val ∧
    r.h.val = (I32.wrap (r.p1.y.val - r.p0.y.val + 1)).val ∧
    (INT_MIN ≤ r.p1.x.val - r.p0.x.val + 1 → r.p1.x.val - r.p0.x.val + 1 ≤ INT_MAX →
      r.w.val = r.p1.x.val - r.p0.x.val + 1) ∧
    (INT_MIN ≤ r.p1.y.val - r.p0.y.val + 1 → r.p1.y.val - r.p0.y.val + 1 ≤ INT_MAX →
      r.h.val = r.p1.y.val - r.p0.y.val + 1) ∧
    (Rect.of_points p p).w.val = 1 ∧ (Rect.of_points p p).h.val = 1 ∧
    (Rect.of_points ⟨0, 0⟩ ⟨3, 4⟩).w.val = 4 ∧ (Rect.of_points ⟨0, 0⟩ ⟨3, 4⟩).h.val = 5 := by
  simp only [INT_MIN, INT_MAX]
  refine ⟨rfl, rfl, ?_, ?_, ?_, ?_, ?_, ?_, by decide, by decide⟩
  · simp only [Rect.w, int_add, int_sub, I32.wrap_val, I32.val_one]; omega
  · simp only [Rect.h, int_add, int_sub, I32.wrap_val, I32.val_one]; omega
  · intro h1 h2
    simp only [Rect.w, int_add, int_sub, I32.wrap_val, I32.val_one]; omega
  · intro h1 h2
    simp only [Rect.h, int_add, int_sub, I32.wrap_val, I32.val_one]; omega
  · simp only [Rect.of_points, Rect.w, int_add, int_sub, I32.wrap_val, I32.val_one]; omega
  · simp only [Rect.of_points, Rect.h, int_add, int_sub, I32.wrap_val, I32.val_one]; omega

/-- Instance of C6 at `Rect(-2, 1, 3, 7)`: width 6 and height 7 as exact integers. -/
theorem C6_rect_w_h_witness :
    (Rect.of_coords (I32.wrap (-2)) 1 3 7).w.val = 3 - (-2) + 1 ∧
    (Rect.of_coords (I32.wrap (-2)) 1 3 7).h.val = 7 - 1 + 1 :=
  ⟨(C6_rect_w_h (Rect.of_coords (I32.wrap (-2)) 1 3 7) ⟨0, 0⟩).2.2.2.2.1
      (by decide) (by decide),
   (C6_rect_w_h (Rect.of_coords (I32.wrap (-2)) 1 3 7) ⟨0, 0⟩).2.2.2.2.2.1
      (by decide) (by decide)⟩

/-- C7. For every rectangle `r`, `r.dims()` is `P(r.w(), r.h())`, `r.min_dim()` is the
smaller and `r.max_dim()` the larger of `r.w()` and `r.h()`; so `min_dim() <= max_dim()`
and each is one of `w()`, `h()`.  For `Rect(P(0,0), P(3,4))`: `dims() == (4,5)`,
`min_dim() == 4`, `max_dim() == 5`. -/
theorem C7_dims_min_max (r : Rect) :
    P.eq r.dims ⟨r.w, r.h⟩ = true ∧
    r.min_dim.val = min r.w.val r.h.val ∧
    r.max_dim.val = max r.w.val r.h.val ∧
    r.min_dim.val ≤ r.max_dim.val ∧
    (r.min_dim = r.w ∨ r.min_dim = r.h) ∧
    (r.max_dim = r.w ∨ r.max_dim = r.h) ∧
    P.eq (Rect.of_points ⟨0, 0⟩ ⟨3, 4⟩).dims ⟨4, 5⟩ = true ∧
    (Rect.of_points ⟨0, 0⟩ ⟨3, 4⟩).min_dim.val = 4 ∧
    (Rect.of_points ⟨0, 0⟩ ⟨3, 4⟩).max_dim.val = 5 := by
  refine ⟨by simp [P.eq, Rect.dims], ?_, ?_, ?_, ?_, ?_, by decide, by decide, by decide⟩
  · simp only [Rect.min_dim, std_min]
    split_ifs <;> omega
  · simp only [Rect.max_dim, std_max]
    split_ifs <;> omega
  · simp only [Rect.min_dim, Rect.max_dim, std_min, std_max]
    split_ifs <;> omega
  · simp only [Rect.min_dim, std_min]
    split_ifs
    · exact Or.inr rfl
    · exact Or.inl rfl
  · simp only [Rect.max_dim, std_max]
    split_ifs
    · exact Or.inr rfl
    · exact Or.inl rfl

/-- C8. For every rectangle `r`, `r.center_pos()` is `(r.p0 + r.p1) / 2` with the
truncating division of `P`: it has a result, whose components are the component sums
halved toward zero.  `Rect(P(0,0), P(4,4))` and `Rect(P(0,0), P(5,5))` both have centre
`(2,2)`. -/
theorem C8_center_pos (r : Rect) :
    r.center_pos = P.div_int (P.add r.p0 r.p1) 2 ∧
    (∃ c, r.center_pos = some c ∧
      c.x.val = Int.tdiv (P.add r.p0 r.p1).x.val 2 ∧
      c.y.val = Int.tdiv (P.add r.p0 r.p1).y.val 2 ∧
      rounds_toward_zero (P.add r.p0 r.p1).x.val 2 c.x.val ∧
      rounds_toward_zero (P.add r.p0 r.p1).y.val 2 c.y.val) ∧
    (∃ c, (Rect.of_points ⟨0, 0⟩ ⟨4, 4⟩).center_pos = some c ∧ P.eq c ⟨2, 2⟩ = true) ∧
    (∃ c, (Rect.of_points ⟨0, 0⟩ ⟨5, 5⟩).center_pos = some c ∧ P.eq c ⟨2, 2⟩ = true) := by
  have e : r.center_pos = P.div_int (P.add r.p0 r.p1) 2 := by
    unfold Rect.center_pos
    rw [P.add_comm]
  refine ⟨e, ?_, ⟨⟨2, 2⟩, by decide, by decide⟩, ⟨⟨2, 2⟩, by decide, by decide⟩⟩
  obtain ⟨qx, hqx, hqxv⟩ := int_div_two (P.add r.p0 r.p1).x
  obtain ⟨qy, hqy, hqyv⟩ := int_div_two (P.add r.p0 r.p1).y
  refine ⟨⟨qx, qy⟩, ?_, hqxv, hqyv, ?_, ?_⟩
  · rw [e]
    exact P.div_int_eq_some (P.add r.p0 r.p1) 2 qx qy hqx hqy
  · show rounds_toward_zero (P.add r.p0 r.p1).x.val 2 qx.val
    rw [hqxv]; exact tdiv_rounds_toward_zero _ _ (by decide)
  · show rounds_toward_zero (P.add r.p0 r.p1).y.val 2 qy.val
    rw [hqyv]; exact tdiv_rounds_toward_zero _ _ (by decide)

/-- C9 (as stated, refuted). `Rect(P(2^30, 0), P(2^30, 0))` has four non-negative
coordinates, its x sum `2^31` overflows, and `center_pos()` is `(-2^30, 0)` while the floor
midpoint of the x coordinates is `2^30`. -/
theorem C9_counterexample :
    0 ≤ (1073741824 : I32).val ∧ 0 ≤ (0 : I32).val ∧
    (Rect.of_points ⟨1073741824, 0⟩ ⟨1073741824, 0⟩).center_pos
      = some ⟨I32.wrap (-1073741824), 0⟩ ∧
    (I32.wrap (-1073741824)).val = -1073741824 ∧
    Int.fdiv ((1073741824 : I32).val + (1073741824 : I32).val) 2 = 1073741824 ∧
    ¬ (∃ c, (Rect.of_points ⟨1073741824, 0⟩ ⟨1073741824, 0⟩).center_pos = some c ∧
        c.x.val = Int.fdiv ((1073741824 : I32).val + (1073741824 : I32).val) 2) := by
  refine ⟨by decide, by decide, by decide, by decide, by decide, ?_⟩
  rintro ⟨c, h1, h2⟩
  have h3 : (Rect.of_points ⟨1073741824, 0⟩ ⟨1073741824, 0⟩).center_pos
      = some ⟨I32.wrap (-1073741824), 0⟩ := by decide
  rw [h3] at h1
  cases h1
  exact absurd h2 (by decide)

/-- C9 (amended). For every rectangle `r` whose four coordinates are non-negative and whose
coordinate sums `p0.x + p1.x`, `p0.y + p1.y` do not exceed `INT_MAX`, `r.center_pos()` has
a result and it is the floor midpoint: its x is `floor((p0.x + p1.x) / 2)` and its y is
`floor((p0.y + p1.y) / 2)`. -/
theorem C9_center_floor_midpoint (r : Rect)
    (h0x : 0 ≤ r.p0.x.val) (h0y : 0 ≤ r.p0.y.val)
    (h1x : 0 ≤ r.p1.x.val) (h1y : 0 ≤ r.p1.y.val)
    (hsx : r.p0.x.val + r.p1.x.val ≤ INT_MAX) (hsy : r.p0.y.val + r.p1.y.val ≤ INT_MAX) :
    ∃ c, r.center_pos = some c ∧
      c.x.val = Int.fdiv (r.p0.x.val + r.p1.x.val) 2 ∧
      c.y.val = Int.fdiv (r.p0.y.val + r.p1.y.val) 2 ∧
      c.x.val = ⌊((r.p0.x.val + r.p1.x.val : Int) : ℚ) / 2⌋ ∧
      c.y.val = ⌊((r.p0.y.val + r.p1.y.val : Int) : ℚ) / 2⌋ := by
  simp only [INT_MAX] at hsx hsy
  have fl : ∀ n : Int, ⌊((n : Int) : ℚ) / 2⌋ = n / 2 := by
    intro n
    have := Rat.floor_intCast_div_natCast n 2
    simpa using this
  have key : ∀ a b : I32, 0 ≤ a.val → 0 ≤ b.val → b.val + a.val ≤ 2147483647 →
      ∃ q, int_div (int_add a b) 2 = some q ∧ q.val = (b.val + a.val) / 2 := by
    intro a b ha hb hs
    obtain ⟨q, hq, hqv⟩ := int_div_two (int_add a b)
    refine ⟨q, hq, ?_⟩
    have hv : (int_add a b).val = b.val + a.val := by
      simp only [int_add]
      rw [I32.wrap_val_of_range (by omega) (by omega)]; omega
    rw [hqv, hv, Int.tdiv_eq_ediv (by omega) (by decide)]
  obtain ⟨qx, hqx, hqxv⟩ := key r.p1.x r.p0.x h1x h0x hsx
  obtain ⟨qy, hqy, hqyv⟩ := key r.p1.y r.p0.y h1y h0y hsy
  refine ⟨⟨qx, qy⟩, ?_, ?_, ?_, ?_, ?_⟩
  · exact P.div_int_eq_some (P.add r.p1 r.p0) 2 qx qy hqx hqy
  · show qx.val = _
    rw [hqxv, Int.fdiv_eq_ediv _ (by decide)]
  · show qy.val = _
    rw [hqyv, Int.fdiv_eq_ediv _ (by decide)]
  · show qx.val = _
    rw [hqxv, fl]
  · show qy.val = _
    rw [hqyv, fl]

/-- Instance of C9 (amended) at `Rect(1, 2, 4, 7)`. -/
theorem C9_center_floor_midpoint_witness :
    0 ≤ (1 : I32).val ∧ 0 ≤ (2 : I32).val ∧ 0 ≤ (4 : I32).val ∧ 0 ≤ (7 : I32).val ∧
    (1 : I32).val + (4 : I32).val ≤ INT_MAX ∧ (2 : I32).val + (7 : I32).val ≤ INT_MAX ∧
    ∃ c, (Rect.of_coords 1 2 4 7).center_pos = some c ∧
      c.x.val = Int.fdiv ((1 : I32).val + (4 : I32).val) 2 ∧
      c.y.val = Int.fdiv ((2 : I32).val + (7 : I32).val) 2 ∧
      c.x.val = ⌊((((1 : I32).val + (4 : I32).val : Int) : ℚ)) / 2⌋ ∧
      c.y.val = ⌊((((2 : I32).val + (7 : I32).val : Int) : ℚ)) / 2⌋ :=
  ⟨by decide, by decide, by decide, by decide, by decide, by decide,
    C9_center_floor_midpoint (Rect.of_coords 1 2 4 7) (by decide) (by decide) (by decide)
      (by decide) (by decide) (by decide)⟩

/-- C10 (as stated, refuted). `Rect(0, 0, INT_MAX, 0)` satisfies `p1.x >= p0.x` and
`p1.y >= p0.y`, yet its width overflows to `INT_MIN`; `Rect(2, 0, INT_MIN, 0)` has
`p1.x < p0.x`, yet its width overflows to `INT_MAX`. -/
theorem C10_counterexample :
    (Rect.of_coords 0 0 2147483647 0).p1.x.val ≥ (Rect.of_coords 0 0 2147483647 0).p0.x.val ∧
    (Rect.of_coords 0 0 2147483647 0).p1.y.val ≥ (Rect.of_coords 0 0 2147483647 0).p0.y.val ∧
    (Rect.of_coords 0 0 2147483647 0).w.val = -2147483648 ∧
    ¬ ((Rect.of_coords 0 0 2147483647 0).w.val ≥ 1) ∧
    (Rect.of_coords 2 0 (I32.wrap (-2147483648)) 0).p1.x.val
      < (Rect.of_coords 2 0 (I32.wrap (-2147483648)) 0).p0.x.val ∧
    (Rect.of_coords 2 0 (I32.wrap (-2147483648)) 0).w.val = 2147483647 ∧
    ¬ ((Rect.of_coords 2 0 (I32.wrap (-2147483648)) 0).w.val ≤ 0) := by
  refine ⟨by decide, by decide, by decide, by decide, by decide, by decide, by decide⟩

/-- C10 (amended). Rectangle metrics are unguarded.  For every rectangle `r`: if
`p1.x >= p0.x`, `p1.y >= p0.y` and neither `p1.x - p0.x + 1` nor `p1.y - p0.y + 1` exceeds
`INT_MAX`, then `w() >= 1` and `h() >= 1`; if `p1.x < p0.x` and `p1.x - p0.x + 1` is not
below `INT_MIN` then `w() <= 0`, and likewise for `h()`.  The constructors store any two
corners as given: `Rect(P(3,3), P(0,0))` is accepted and has width and height `-2`. -/
theorem C10_metrics_unguarded (r : Rect) (p0 p1 : P) (x0 y0 x1 y1 : I32) :
    (r.p1.x.val ≥ r.p0.x.val → r.p1.y.val ≥ r.p0.y.val →
      r.p1.x.val - r.p0.x.val + 1 ≤ INT_MAX → r.p1.y.val - r.p0.y.val + 1 ≤ INT_MAX →
      r.w.val ≥ 1 ∧ r.h.val ≥ 1) ∧
    (r.p1.x.val < r.p0.x.val → INT_MIN ≤ r.p1.x.val - r.p0.x.val + 1 → r.w.val ≤ 0) ∧
    (r.p1.y.val < r.p0.y.val → INT_MIN ≤ r.p1.y.val - r.p0.y.val + 1 → r.h.val ≤ 0) ∧
    ((Rect.of_points p0 p1).p0 = p0 ∧ (Rect.of_points p0 p1).p1 = p1) ∧
    ((Rect.of_coords x0 y0 x1 y1).p0 = ⟨x0, y0⟩ ∧ (Rect.of_coords x0 y0 x1 y1).p1 = ⟨x1, y1⟩) ∧
    (Rect.of_points ⟨3, 3⟩ ⟨0, 0⟩).w.val = -2 ∧ (Rect.of_points ⟨3, 3⟩ ⟨0, 0⟩).h.val = -2 := by
  simp only [INT_MIN, INT_MAX]
  have hx0 := r.p0.x.lo
  have hx1 := r.p0.x.hi
  have hx2 := r.p1.x.lo
  have hx3 := r.p1.x.hi
  have hy0 := r.p0.y.lo
  have hy1 := r.p0.y.hi
  have hy2 := r.p1.y.lo
  have hy3 := r.p1.y.hi
  refine ⟨?_, ?_, ?_, ⟨rfl, rfl⟩, ⟨rfl, rfl⟩, by decide, by decide⟩
  · intro h1 h2 h3 h4
    simp only [Rect.w, Rect.h, int_add, int_sub, I32.wrap_val, I32.val_one]
    constructor <;> omega
  · intro h1 h2
    simp only [Rect.w, int_add, int_sub, I32.wrap_val, I32.val_one]
    omega
  · intro h1 h2
    simp only [Rect.h, int_add, int_sub, I32.wrap_val, I32.val_one]
    omega

/-- Instance of C10 (amended) at `Rect(1, 2, 4, 7)` and at the inverted `Rect(5, 6, 1, 2)`. -/
theorem C10_metrics_unguarded_witness :
    ((Rect.of_coords 1 2 4 7).w.val ≥ 1 ∧ (Rect.of_coords 1 2 4 7).h.val ≥ 1) ∧
    (Rect.of_coords 5 6 1 2).w.val ≤ 0 ∧ (Rect.of_coords 5 6 1 2).h.val ≤ 0 :=
  ⟨(C10_metrics_unguarded (Rect.of_coords 1 2 4 7) ⟨0, 0⟩ ⟨0, 0⟩ 0 0 0 0).1
      (by decide) (by decide) (by decide) (by decide),
   (C10_metrics_unguarded (Rect.of_coords 5 6 1 2) ⟨0, 0⟩ ⟨0, 0⟩ 0 0 0 0).2.1
      (by decide) (by decide),
   (C10_metrics_unguarded (Rect.of_coords 5 6 1 2) ⟨0, 0⟩ ⟨0, 0⟩ 0 0 0 0).2.2.1
      (by decide) (by decide)⟩

/-- C11. For all points `a`, `b`: `a == b` is true exactly when both components are equal;
`a != b` is the negation of `a == b`; and for every `int v` the scalar `a != v` is true
exactly when at least one of `a.x`, `a.y` differs from `v`, so it is false only when
`a == P(v, v)`. -/
theorem C11_eq_ne (a b : P) (v : I32) :
    (P.eq a b = true ↔ a.x.val = b.x.val ∧ a.y.val = b.y.val) ∧
    (P.eq a b = true ↔ a = b) ∧
    P.ne a b = !(P.eq a b) ∧
    (P.ne_int a v = true ↔ a.x.val ≠ v.val ∨ a.y.val ≠ v.val) ∧
    (P.ne_int a v = false ↔ P.eq a ⟨v, v⟩ = true) := by
  refine ⟨by simp [P.eq], ?_, ?_, by simp [P.ne_int], ?_⟩
  · constructor
    · intro h
      simp only [P.eq, Bool.and_eq_true, decide_eq_true_eq] at h
      cases a with
      | mk ax ay =>
        cases b with
        | mk bx bq =>
          have e1 : ax = bx := I32.ext_val h.1
          have e2 : ay = bq := I32.ext_val h.2
          rw [e1, e2]
    · intro h
      rw [h]
      simp [P.eq]
  · by_cases hx : a.x.val = b.x.val <;> by_cases hy : a.y.val = b.y.val <;>
      simp [P.ne, P.eq, hx, hy]
  · by_cases hx : a.x.val = v.val <;> by_cases hy : a.y.val = v.val <;>
      simp [P.ne_int, P.eq, hx, hy]

/-- C12. Scalar operands are broadcast: for every point `a` and `int v`, `a + v`, `a - v`,
`a * v` are `==` to the point forms against `P(v, v)`; `a / v` and `a / P(v, v)` have the
same outcome, and when `v` is nonzero (and the quotients are representable) both have a
result and the results are `==`; each scalar comparison has the truth value of the point
comparison against `P(v, v)`; and `P(v)` is `(v, v)`. -/
theorem C12_scalar_broadcast (a : P) (v : I32) :
    P.eq (P.add_int a v) (P.add a ⟨v, v⟩) = true ∧
    P.eq (P.sub_int a v) (P.sub a ⟨v, v⟩) = true ∧
    P.eq (P.mul_int a v) (P.mul a ⟨v, v⟩) = true ∧
    P.div_int a v = P.div a ⟨v, v⟩ ∧
    (v.val ≠ 0 → ¬ (a.x.val = INT_MIN ∧ v.val = -1) → ¬ (a.y.val = INT_MIN ∧ v.val = -1) →
      ∃ q q2, P.div_int a v = some q ∧ P.div a ⟨v, v⟩ = some q2 ∧ P.eq q q2 = true) ∧
    P.gt_int a v = P.gt a ⟨v, v⟩ ∧
    P.lt_int a v = P.lt a ⟨v, v⟩ ∧
    P.ge_int a v = P.ge a ⟨v, v⟩ ∧
    P.le_int a v = P.le a ⟨v, v⟩ ∧
    P.ne_int a v = P.ne a ⟨v, v⟩ ∧
    P.of_int v = ⟨v, v⟩ := by
  simp only [INT_MIN]
  refine ⟨by simp [P.eq, P.add_int, P.add], by simp [P.eq, P.sub_int, P.sub],
    by simp [P.eq, P.mul_int, P.mul], rfl, ?_, rfl, rfl, rfl, rfl, rfl, rfl⟩
  intro hv hx hy
  obtain ⟨qx, hqx, _⟩ := int_div_some a.x v hv hx
  obtain ⟨qy, hqy, _⟩ := int_div_some a.y v hv hy
  refine ⟨⟨qx, qy⟩, ⟨qx, qy⟩, P.div_int_eq_some a v qx qy hqx hqy, ?_, by simp [P.eq]⟩
  exact P.div_eq_some a ⟨v, v⟩ qx qy hqx hqy

/-- Instance of C12 at `a = (-7, 7)`, `v = 2`: both divisions have a result and agree. -/
theorem C12_scalar_broadcast_witness :
    (2 : I32).val ≠ 0 ∧
    ∃ q q2, P.div_int ⟨I32.wrap (-7), 7⟩ 2 = some q ∧
      P.div ⟨I32.wrap (-7), 7⟩ ⟨2, 2⟩ = some q2 ∧ P.eq q q2 = true :=
  ⟨by decide,
    (C12_scalar_broadcast ⟨I32.wrap (-7), 7⟩ 2).2.2.2.2.1 (by decide) (by decide) (by decide)⟩

/-- C13. `P::swap` exchanges two points by value: after `a.swap(b)`, `a` has the old value
of `b` and `b` the old value of `a`; swapping twice restores both; swapping a point with
itself leaves it unchanged.  `set(other)` leaves the point equal to `other` and
`set(new_x, new_y)` equal to `(new_x, new_y)`. -/
theorem C13_swap_set (a b other : P) (new_x new_y : I32) :
    (P.swap a b).1 = b ∧ (P.swap a b).2 = a ∧
    P.swap (P.swap a b).1 (P.swap a b).2 = (a, b) ∧
    P.swap_aliased a = a ∧
    P.set a other = other ∧ P.eq (P.set a other) other = true ∧
    P.set_xy a new_x new_y = ⟨new_x, new_y⟩ ∧
    P.eq (P.set_xy a new_x new_y) ⟨new_x, new_y⟩ = true := by
  refine ⟨rfl, rfl, rfl, rfl, rfl, by simp [P.eq, P.set], rfl, by simp [P.eq, P.set_xy]⟩

/-- C14. The offset helpers return a shifted copy: `a.pos_with_offset(d) == a + d`;
`a.pos_with_x_offset(dx)` is `P(a.x + dx, a.y)` with y unchanged; `a.pos_with_y_offset(dy)`
is `P(a.x, a.y + dy)` with x unchanged; and shifting x then y equals
`a.pos_with_offset(P(dx, dy))`.  None of the three calls changes `a`. -/
theorem C14_offsets (a d : P) (dx dy : I32) :
    P.eq (P.pos_with_offset a d) (P.add a d) = true ∧
    P.pos_with_x_offset a dx = ⟨int_add a.x dx, a.y⟩ ∧
    (P.pos_with_x_offset a dx).y = a.y ∧
    P.pos_with_y_offset a dy = ⟨a.x, int_add a.y dy⟩ ∧
    (P.pos_with_y_offset a dy).x = a.x ∧
    P.eq (P.pos_with_y_offset (P.pos_with_x_offset a dx) dy)
      (P.pos_with_offset a ⟨dx, dy⟩) = true ∧
    (P.pos_with_offset_call a d).1 = a ∧
    (P.pos_with_x_offset_call a dx).1 = a ∧
    (P.pos_with_y_offset_call a dy).1 = a := by
  refine ⟨by simp [P.eq, P.pos_with_offset, P.add], rfl, rfl, rfl, rfl, ?_, rfl, rfl, rfl⟩
  simp [P.eq, P.pos_with_offset, P.pos_with_x_offset, P.pos_with_y_offset]

/-- C15. `Dir` is numbered densely from 1: its nine direction variants have the underlying
values 1 to 9 in declaration order (pairwise distinct, none 0), the sentinel `dir_end` has
value 10, and iterating the integers from 1 to `dir_end - 1` visits each of the nine
variants exactly once, the next integer being the sentinel. -/
theorem C15_dir_dense :
    Dir.directions = [Dir.down_left, Dir.down, Dir.down_right, Dir.left, Dir.center,
      Dir.right, Dir.up_left, Dir.up, Dir.up_right] ∧
    (∀ d : Dir, d ∈ Dir.directions ↔ d ≠ Dir.dir_end) ∧
    Dir.directions.length = 9 ∧
    Dir.directions.map Dir.to_int = [1, 2, 3, 4, 5, 6, 7, 8, 9] ∧
    (Dir.directions.map Dir.to_int).Nodup ∧
    (0 : Int) ∉ Dir.enumerators.map Dir.to_int ∧
    Dir.dir_end.to_int = 10 ∧
    dir_iteration = Dir.directions.map some ∧
    dir_iteration.Nodup ∧
    Dir.of_int 10 = some Dir.dir_end := by
  refine ⟨by decide, ?_, by decide, by decide, by decide, by decide, rfl, by decide,
    by decide, by decide⟩
  intro d
  cases d <;> decide

/-- C16. A default-constructed `Char_And_Clr` has the character with code 0 and foreground
and background both `clr_white`; `Char_And_Clr(c, k)` stores `c` and `k` and takes
`clr_black` as background; the three-argument construction stores the three values
given. -/
theorem C16_char_and_clr (Clr : Type) (clr_black clr_white : Clr) (c : c_char) (k kb : Clr) :
    (Char_And_Clr.default clr_white).ch = 0 ∧
    (Char_And_Clr.default clr_white).ch.val = 0 ∧
    (Char_And_Clr.default clr_white).clr = clr_white ∧
    (Char_And_Clr.default clr_white).clr_bg = clr_white ∧
    (Char_And_Clr.ctor2 clr_black c k).ch = c ∧
    (Char_And_Clr.ctor2 clr_black c k).clr = k ∧
    (Char_And_Clr.ctor2 clr_black c k).clr_bg = clr_black ∧
    (Char_And_Clr.ctor c k kb).ch = c ∧
    (Char_And_Clr.ctor c k kb).clr = k ∧
    (Char_And_Clr.ctor c k kb).clr_bg = kb := by
  refine ⟨rfl, rfl, rfl, rfl, rfl, rfl, rfl, rfl, rfl, rfl⟩

/-- C17. The centre of a well-formed rectangle lies inside it: for every rectangle `r` with
`p0.x <= p1.x`, `p0.y <= p1.y` and coordinate sums within the range of `int`,
`r.center_pos()` has a result `c` with `r.p0 <= c` and `c <= r.p1`, negative coordinates
included. -/
theorem C17_center_inside (r : Rect)
    (hx : r.p0.x.val ≤ r.p1.x.val) (hy : r.p0.y.val ≤ r.p1.y.val)
    (hsx : INT_MIN ≤ r.p0.x.val + r.p1.x.val ∧ r.p0.x.val + r.p1.x.val ≤ INT_MAX)
    (hsy : INT_MIN ≤ r.p0.y.val + r.p1.y.val ∧ r.p0.y.val + r.p1.y.val ≤ INT_MAX) :
    ∃ c, r.center_pos = some c ∧ P.le r.p0 c = true ∧ P.le c r.p1 = true := by
  simp only [INT_MIN, INT_MAX] at hsx hsy
  have key : ∀ lo hi : I32, lo.val ≤ hi.val →
      -2147483648 ≤ lo.val + hi.val → lo.val + hi.val ≤ 2147483647 →
      ∃ q, int_div (int_add hi lo) 2 = some q ∧ lo.val ≤ q.val ∧ q.val ≤ hi.val := by
    intro lo hi hle h1 h2
    obtain ⟨q, hq, hqv⟩ := int_div_two (int_add hi lo)
    have hv : (int_add hi lo).val = hi.val + lo.val := by
      simp only [int_add]
      rw [I32.wrap_val_of_range (by omega) (by omega)]
    have hb := tdiv_two_between lo.val hi.val hle
    rw [hv] at hqv
    rw [← hqv] at hb
    exact ⟨q, hq, hb.1, hb.2⟩
  obtain ⟨qx, hqx, hx1, hx2⟩ := key r.p0.x r.p1.x hx hsx.1 hsx.2
  obtain ⟨qy, hqy, hy1, hy2⟩ := key r.p0.y r.p1.y hy hsy.1 hsy.2
  refine ⟨⟨qx, qy⟩, P.div_int_eq_some (P.add r.p1 r.p0) 2 qx qy hqx hqy, ?_, ?_⟩
  · simp only [P.le, Bool.and_eq_true, decide_eq_true_eq]
    exact ⟨hx1, hy1⟩
  · simp only [P.le, Bool.and_eq_true, decide_eq_true_eq]
    exact ⟨hx2, hy2⟩

/-- Instance of C17 at `Rect(-5, -3, -2, 4)`, whose x coordinates are all negative and whose
y coordinates straddle zero. -/
theorem C17_center_inside_witness :
    (I32.wrap (-5)).val ≤ (I32.wrap (-2)).val ∧ (I32.wrap (-3)).val ≤ (4 : I32).val ∧
    (INT_MIN ≤ (I32.wrap (-5)).val + (I32.wrap (-2)).val ∧
      (I32.wrap (-5)).val + (I32.wrap (-2)).val ≤ INT_MAX) ∧
    (INT_MIN ≤ (I32.wrap (-3)).val + (4 : I32).val ∧
      (I32.wrap (-3)).val + (4 : I32).val ≤ INT_MAX) ∧
    ∃ c, (Rect.of_coords (I32.wrap (-5)) (I32.wrap (-3)) (I32.wrap (-2)) 4).center_pos
        = some c ∧
      P.le (Rect.of_coords (I32.wrap (-5)) (I32.wrap (-3)) (I32.wrap (-2)) 4).p0 c = true ∧
      P.le c (Rect.of_coords (I32.wrap (-5)) (I32.wrap (-3)) (I32.wrap (-2)) 4).p1 = true :=
  ⟨by decide, by decide, by decide, by decide,
    C17_center_inside (Rect.of_coords (I32.wrap (-5)) (I32.wrap (-3)) (I32.wrap (-2)) 4)
      (by decide) (by decide) (by decide) (by decide)⟩

/-- C18. `P::operator<=` is a partial order compatible with `P::operator==`: `a <= a`;
`a <= b` and `b <= a` give `a == b`; `a <= b` and `b <= c` give `a <= c`.  Moreover
`a >= b` has the truth value of `b <= a`, and `a > b` that of `b < a`. -/
theorem C18_le_partial_order (a b c : P) :
    P.le a a = true ∧
    (P.le a b = true → P.le b a = true → P.eq a b = true) ∧
    (P.le a b = true → P.le b c = true → P.le a c = true) ∧
    P.ge a b = P.le b a ∧
    P.gt a b = P.lt b a := by
  refine ⟨by simp [P.le], ?_, ?_, rfl, rfl⟩
  · intro h1 h2
    simp only [P.le, P.eq, Bool.and_eq_true, decide_eq_true_eq] at h1 h2 ⊢
    constructor <;> omega
  · intro h1 h2
    simp only [P.le, Bool.and_eq_true, decide_eq_true_eq] at h1 h2 ⊢
    constructor <;> omega

/-- Instance of C18: antisymmetry at `a = b = (2, 3)` and transitivity along
`(1, 2) <= (2, 3) <= (4, 3)`. -/
theorem C18_le_partial_order_witness :
    (P.le ⟨2, 3⟩ ⟨2, 3⟩ = true ∧ P.eq ⟨2, 3⟩ ⟨2, 3⟩ = true) ∧
    (P.le ⟨1, 2⟩ ⟨2, 3⟩ = true ∧ P.le ⟨2, 3⟩ ⟨4, 3⟩ = true ∧ P.le ⟨1, 2⟩ ⟨4, 3⟩ = true) :=
  ⟨⟨by decide,
     (C18_le_partial_order ⟨2, 3⟩ ⟨2, 3⟩ ⟨0, 0⟩).2.1 (by decide) (by decide)⟩,
   ⟨by decide, by decide,
     (C18_le_partial_order ⟨1, 2⟩ ⟨2, 3⟩ ⟨4, 3⟩).2.2.1 (by decide) (by decide)⟩⟩

/-- C19. Strict ordering on `P` is stronger than non-strict and different: `a < b` implies
`a <= b` and `a != b`; the converse fails at `a = (0,0)`, `b = (0,1)`, where `a <= b` and
`a != b` hold and `a < b` does not; and `a < b` is not the negation of `a >= b`: both are
false at `a = (1,5)`, `b = (5,1)`. -/
theorem C19_strict_stronger (a b : P) :
    (P.lt a b = true → P.le a b = true ∧ P.ne a b = true) ∧
    (P.le ⟨0, 0⟩ ⟨0, 1⟩ = true ∧ P.ne ⟨0, 0⟩ ⟨0, 1⟩ = true ∧ P.lt ⟨0, 0⟩ ⟨0, 1⟩ = false) ∧
    ¬ (∀ p q : P, P.le p q = true → P.ne p q = true → P.lt p q = true) ∧
    (P.lt ⟨1, 5⟩ ⟨5, 1⟩ = false ∧ P.ge ⟨1, 5⟩ ⟨5, 1⟩ = false) ∧
    ¬ (∀ p q : P, P.lt p q = !(P.ge p q)) := by
  refine ⟨?_, ⟨by decide, by decide, by decide⟩, ?_, ⟨by decide, by decide⟩, ?_⟩
  · intro h
    simp only [P.lt, P.le, P.ne, Bool.and_eq_true, Bool.or_eq_true, decide_eq_true_eq]
      at h ⊢
    refine ⟨⟨by omega, by omega⟩, Or.inl (by omega)⟩
  · intro h
    have h1 := h ⟨0, 0⟩ ⟨0, 1⟩ (by decide) (by decide)
    exact absurd h1 (by decide)
  · intro h
    have h1 := h ⟨1, 5⟩ ⟨5, 1⟩
    exact absurd h1 (by decide)

/-- Instance of C19 at `a = (1, 2)`, `b = (3, 4)`. -/
theorem C19_strict_stronger_witness :
    P.lt ⟨1, 2⟩ ⟨3, 4⟩ = true ∧ P.le ⟨1, 2⟩ ⟨3, 4⟩ = true ∧ P.ne ⟨1, 2⟩ ⟨3, 4⟩ = true :=
  ⟨by decide, (C19_strict_stronger ⟨1, 2⟩ ⟨3, 4⟩).1 (by decide)⟩

/-- C20. Every compound assignment on `P` agrees with its binary counterpart: after
`a *= v`, `a *= p`, `a += p`, `a -= p` the point `a` is the old `a * v`, `a * p`, `a + p`,
`a - p`; `a /= v` and `a /= p` have the outcome of `a / v` and `a / p`, with a result
whenever the divisor is nonzero and the quotients are representable; the operand `p` is
unchanged in each case. -/
theorem C20_compound_assign (a p : P) (v : I32) :
    P.mul_assign_int a v = P.mul_int a v ∧
    P.mul_assign a p = P.mul a p ∧
    P.div_assign_int a v = P.div_int a v ∧
    P.div_assign a p = P.div a p ∧
    P.add_assign a p = P.add a p ∧
    P.sub_assign a p = P.sub a p ∧
    (v.val ≠ 0 → ¬ (a.x.val = INT_MIN ∧ v.val = -1) → ¬ (a.y.val = INT_MIN ∧ v.val = -1) →
      ∃ q, P.div_assign_int a v = some q ∧ P.div_int a v = some q ∧ P.eq q q = true) ∧
    (p.x.val ≠ 0 → p.y.val ≠ 0 →
      ¬ (a.x.val = INT_MIN ∧ p.x.val = -1) → ¬ (a.y.val = INT_MIN ∧ p.y.val = -1) →
      ∃ q, P.div_assign a p = some q ∧ P.div a p = some q ∧
        P.div_assign_call a p = some (q, p)) ∧
    P.mul_assign_call a p = (P.mul a p, p) ∧
    P.add_assign_call a p = (P.add a p, p) ∧
    P.sub_assign_call a p = (P.sub a p, p) := by
  simp only [INT_MIN]
  refine ⟨rfl, rfl, rfl, rfl, rfl, rfl, ?_, ?_, rfl, rfl, rfl⟩
  · intro hv hx hy
    obtain ⟨qx, hqx, _⟩ := int_div_some a.x v hv hx
    obtain ⟨qy, hqy, _⟩ := int_div_some a.y v hv hy
    have e := P.div_int_eq_some a v qx qy hqx hqy
    exact ⟨⟨qx, qy⟩, e, e, by simp [P.eq]⟩
  · intro hpx hpy hx hy
    obtain ⟨qx, hqx, _⟩ := int_div_some a.x p.x hpx hx
    obtain ⟨qy, hqy, _⟩ := int_div_some a.y p.y hpy hy
    have e := P.div_eq_some a p qx qy hqx hqy
    have e2 : P.div_assign a p = some ⟨qx, qy⟩ := e
    refine ⟨⟨qx, qy⟩, e2, e, ?_⟩
    unfold P.div_assign_call
    rw [e2]; rfl

/-- Instance of C20 at `a = (-7, 7)`, `v = 2`, `p = (2, -3)`. -/
theorem C20_compound_assign_witness :
    (∃ q, P.div_assign_int ⟨I32.wrap (-7), 7⟩ 2 = some q ∧
      P.div_int ⟨I32.wrap (-7), 7⟩ 2 = some q ∧ P.eq q q = true) ∧
    (∃ q, P.div_assign ⟨I32.wrap (-7), 7⟩ ⟨2, I32.wrap (-3)⟩ = some q ∧
      P.div ⟨I32.wrap (-7), 7⟩ ⟨2, I32.wrap (-3)⟩ = some q ∧
      P.div_assign_call ⟨I32.wrap (-7), 7⟩ ⟨2, I32.wrap (-3)⟩
        = some (q, ⟨2, I32.wrap (-3)⟩)) :=
  ⟨(C20_compound_assign ⟨I32.wrap (-7), 7⟩ ⟨2, I32.wrap (-3)⟩ 2).2.2.2.2.2.2.1
      (by decide) (by decide) (by decide),
   (C20_compound_assign ⟨I32.wrap (-7), 7⟩ ⟨2, I32.wrap (-3)⟩ 2).2.2.2.2.2.2.2.1
      (by decide) (by decide) (by decide) (by decide)⟩

end Fantasy4x
